import Mathlib

/-!
Verification of the Amazon Personalize dataset-group teardown script
(`delete_dataset_groups.py`) against its natural-language specification.

The script is a sequence of remote API calls (list / describe / delete per
resource kind) with status classification, a sleep-and-repoll loop bounded by
a 30-minute deadline, and error propagation.  We embed it shallowly:

* The remote service is external nondeterminism, so describe responses are
  modelled as oracles (functions from poll-pass index and ARN to either a
  status string or an error code), delete responses for schemas as an oracle
  indexed by call number, and listings as given page lists.
* Mutating API calls issued by the script are recorded in a trace
  (`List ApiCall`); each phase returns its trace paired with an
  `Except DeleteError Unit` outcome mirroring Python exception propagation.
* Time: calls are instantaneous and each `time.sleep(20)` advances the clock
  by 20 seconds.  Each poll loop recomputes `max_time = now + 30*60`, so the
  loop-entry check `time.time() < max_time` succeeds exactly 90 times; this
  is modelled by a fuel argument initialised to 90.  The number of sleeps
  actually executed is returned alongside the loop result.
* Python's `for x in lst: ... lst.remove(x)` iterates by index over the list
  being mutated, so removing the current element skips the following one;
  `pollPassAux` reproduces this index-based semantics exactly.
-/

/-- An Amazon Personalize resource as returned by a list call: its ARN and
current status string. -/
structure Resource where
  arn : String
  status : String
deriving DecidableEq, Repr

/-- A dataset as seen by the datasets phase: the list entry's ARN and status,
plus the schema ARN returned by the pre-classification `describe_dataset`
call. -/
structure DatasetInfo where
  arn : String
  status : String
  schemaArn : String
deriving DecidableEq, Repr

/-- Mutating API calls the script can issue, recorded in traces. -/
inductive ApiCall where
  | deleteRecommender (arn : String)
  | deleteCampaign (arn : String)
  | deleteSolution (arn : String)
  | deleteEventTracker (arn : String)
  | deleteFilter (arn : String)
  | deleteDataset (arn : String)
  | deleteSchema (arn : String)
  | deleteDatasetGroup (arn : String)
deriving DecidableEq, Repr

/-- Exceptions the script can raise: the bare `Exception` raised on an
undeletable status, the script's own `ResourcePending`, a re-raised botocore
`ClientError` (identified by its error code), and the botocore version
check failure. -/
inductive DeleteError where
  | statusError (msg : String)
  | resourcePending (msg : String)
  | clientError (code : String)
  | versionError (msg : String)
deriving DecidableEq, Repr

/-- A describe response: either a status string or a `ClientError` code. -/
abbrev DescribeResult := Except String String

/-- `True` for the describe outcome the poll loops treat as
deletion-confirmed: a `ClientError` with code `ResourceNotFoundException`. -/
def isNotFound (r : DescribeResult) : Bool :=
  match r with
  | Except.error code => code == "ResourceNotFoundException"
  | Except.ok _ => false

/-- Python's `status.startswith('DELETE')`, modelled as a character-list
prefix test (equivalent to `String.startsWith`, but kernel-reducible so that
concrete runs can be evaluated in proofs). -/
def strStartsWith (s pre : String) : Bool :=
  List.isPrefixOf pre.data s.data

/-- The statuses in which the script issues a delete:
`status in ['ACTIVE', 'CREATE FAILED']`. -/
def deletableStatus (s : String) : Bool :=
  s == "ACTIVE" || s == "CREATE FAILED"

/-- A status the classification step accepts without raising: deletable, or
already being deleted (`status.startswith('DELETE')`, via [strStartsWith]). -/
def okStatus (s : String) : Bool :=
  deletableStatus s || strStartsWith s "DELETE"

/-- One pass of a poll loop, `for arn in arns: try describe(arn) except
NotFound: arns.remove(arn)`, with Python's index-based iteration over the
list being mutated: index `i` advances by one each step whether or not the
current element was removed, so the element after a removed one is skipped.
Returns the list as left after the pass together with the ARNs actually
described (in call order). -/
def pollPassGo (desc : String → DescribeResult) :
    Nat → List String → Nat → List String × List String
  | 0, l, _ => (l, [])
  | fuel + 1, l, i =>
    if h : i < l.length then
      if isNotFound (desc (l.get ⟨i, h⟩)) then
        let r := pollPassGo desc fuel (l.erase (l.get ⟨i, h⟩)) (i + 1)
        (r.fst, l.get ⟨i, h⟩ :: r.snd)
      else
        let r := pollPassGo desc fuel l (i + 1)
        (r.fst, l.get ⟨i, h⟩ :: r.snd)
    else (l, [])

/-- One pass of the loop, starting at index `i`.  The fuel `l.length - i` is
exact: every iteration increments `i` by one and never lengthens the list,
so the loop runs out of indices after at most `l.length - i` iterations and
the fuel-exhausted branch of `pollPassGo` (which coincides with the
index-exhausted branch) is never the one that fires mid-iteration. -/
def pollPassAux (desc : String → DescribeResult) (l : List String) (i : Nat) :
    List String × List String :=
  pollPassGo desc (l.length - i) l i

/-- The generic deletion poll loop shared by the recommender, campaign,
solution, event-tracker, filter and dataset phases:

    max_time = time.time() + 30*60
    while time.time() < max_time:
        <one pollPassAux pass>
        if not arns: break
        elif wait_for_resources: sleep(20)
        else: raise ResourcePending('There are N <kind> still being deleted')
    if arns: raise ResourcePending('Timed out waiting for all <kind> to be deleted')

The describe oracle is indexed by pass number; `fuel` counts the remaining
loop-entry checks (90 for the fresh 30-minute deadline, since each executed
sleep consumes 20 of the 1800 seconds).  Returns the outcome together with
the number of sleeps executed. -/
def pollLoopAux (desc : Nat → String → DescribeResult) (wait : Bool)
    (pendLabel timeoutLabel : String) (l : List String) :
    Nat → Except DeleteError Unit × Nat
  | 0 =>
    (if l.isEmpty then Except.ok ()
     else Except.error (DeleteError.resourcePending
        ("Timed out waiting for all " ++ timeoutLabel ++ " to be deleted")), 0)
  | fuel + 1 =>
    let l2 := (pollPassAux (desc 0) l 0).fst
    if l2.isEmpty then (Except.ok (), 0)
    else if wait then
      let r := pollLoopAux (fun p => desc (p + 1)) wait pendLabel timeoutLabel l2 fuel
      (r.fst, r.snd + 1)
    else
      (Except.error (DeleteError.resourcePending
        ("There are " ++ toString l2.length ++ " " ++ pendLabel ++
          " still being deleted")), 0)

/-- The tracked list after `k` poll passes, starting from `l`. -/
def trackedAfter (desc : Nat → String → DescribeResult) (l : List String) :
    Nat → List String
  | 0 => l
  | k + 1 => (pollPassAux (desc k) (trackedAfter desc l k) 0).fst

/-- The dataset-group poll loop of `_delete_dataset_group`:

    max_time = time.time() + 30*60
    while time.time() < max_time:
        try: describe_dataset_group(...)
        except ClientError as e:
            if e.code != 'ResourceNotFoundException': raise e
            break
        if not wait_for_resources: raise ResourcePending('Dataset group still being deleted')
        sleep(20)

Note there is no check after the loop: if the deadline elapses with the
group still present the function returns normally.  Returns the outcome and
the number of sleeps executed. -/
def dsgPollLoopAux (desc : Nat → DescribeResult) (wait : Bool) :
    Nat → Except DeleteError Unit × Nat
  | 0 => (Except.ok (), 0)
  | fuel + 1 =>
    match desc 0 with
    | Except.error code =>
      (if code == "ResourceNotFoundException" then Except.ok ()
       else Except.error (DeleteError.clientError code), 0)
    | Except.ok _ =>
      if wait then
        let r := dsgPollLoopAux (fun p => desc (p + 1)) wait fuel
        (r.fst, r.snd + 1)
      else
        (Except.error (DeleteError.resourcePending
          "Dataset group still being deleted"), 0)

/-- Status classification and delete issuing shared verbatim by the
recommender, campaign, event-tracker and dataset phases: for each listed
resource, if its status is `ACTIVE` or `CREATE FAILED` issue the delete; if
it starts with `DELETE` just log; otherwise raise
`Exception('<kindWord> <arn> has a status of <status> so cannot be deleted')`.
Every resource reached without raising is appended to the tracked list.
Returns the trace of deletes issued and either the tracked ARNs or the
error. -/
def classifyResources (kindWord : String) (mk : String → ApiCall) :
    List Resource → List ApiCall × Except DeleteError (List String)
  | [] => ([], Except.ok [])
  | r :: rest =>
    if deletableStatus r.status then
      let t := classifyResources kindWord mk rest
      (mk r.arn :: t.fst, t.snd.map (fun arns => r.arn :: arns))
    else if strStartsWith r.status "DELETE" then
      let t := classifyResources kindWord mk rest
      (t.fst, t.snd.map (fun arns => r.arn :: arns))
    else
      ([], Except.error (DeleteError.statusError
        (kindWord ++ " " ++ r.arn ++ " has a status of " ++ r.status ++
          " so cannot be deleted")))

/-- The campaign half of `_delete_recommenders_and_campaigns`: for each
solution ARN (in order), list its campaigns page by page and classify them
with `classifyResources`.  Campaign ARNs accumulate across solutions; an
undeletable status aborts immediately. -/
def classifyCampaigns (campaignPagesOf : String → List (List Resource)) :
    List String → List ApiCall × Except DeleteError (List String)
  | [] => ([], Except.ok [])
  | s :: rest =>
    let c := classifyResources "Campaign" ApiCall.deleteCampaign
      (campaignPagesOf s).flatten
    match c.snd with
    | Except.error e => (c.fst, Except.error e)
    | Except.ok arns =>
      let r := classifyCampaigns campaignPagesOf rest
      (c.fst ++ r.fst, r.snd.map (fun more => arns ++ more))

/-- `_delete_recommenders_and_campaigns`: classify and delete the listed
recommenders, then the campaigns of each solution, then poll the
recommenders to absence (fresh 30-minute deadline), then the campaigns. -/
def delete_recommenders_and_campaigns (recommenderPages : List (List Resource))
    (solution_arns : List String)
    (campaignPagesOf : String → List (List Resource))
    (descRec descCamp : Nat → String → DescribeResult)
    (wait_for_resources : Bool) : List ApiCall × Except DeleteError Unit :=
  let rc := classifyResources "Recommender" ApiCall.deleteRecommender
    recommenderPages.flatten
  match rc.snd with
  | Except.error e => (rc.fst, Except.error e)
  | Except.ok recArns =>
    let cc := classifyCampaigns campaignPagesOf solution_arns
    match cc.snd with
    | Except.error e => (rc.fst ++ cc.fst, Except.error e)
    | Except.ok campArns =>
      match (pollLoopAux descRec wait_for_resources "recommender(s)"
          "recommenders" recArns 90).fst with
      | Except.error e => (rc.fst ++ cc.fst, Except.error e)
      | Except.ok _ =>
        (rc.fst ++ cc.fst,
         (pollLoopAux descCamp wait_for_resources "campaign(s)" "campaigns"
           campArns 90).fst)

/-- The pre-delete describe-and-classify step of `_delete_solutions`: each
solution ARN is described; a `ResourceNotFoundException` from the describe
is swallowed and the solution skipped; any other `ClientError` is re-raised;
on a status the same classification as the other kinds is applied (an
undeletable status raises a bare `Exception`, which the `except ClientError`
clause does not catch). -/
def solutionPreDelete (descPre : String → DescribeResult) :
    List String → List ApiCall × Except DeleteError Unit
  | [] => ([], Except.ok ())
  | arn :: rest =>
    match descPre arn with
    | Except.ok st =>
      if deletableStatus st then
        let r := solutionPreDelete descPre rest
        (ApiCall.deleteSolution arn :: r.fst, r.snd)
      else if strStartsWith st "DELETE" then solutionPreDelete descPre rest
      else
        ([], Except.error (DeleteError.statusError
          ("Solution " ++ arn ++ " has a status of " ++ st ++
            " so cannot be deleted")))
    | Except.error code =>
      if code == "ResourceNotFoundException" then solutionPreDelete descPre rest
      else ([], Except.error (DeleteError.clientError code))

/-- `_delete_solutions`: the pre-delete describe/classify step over the given
solution ARNs, then the generic poll loop over the same full ARN list (the
list is not filtered before polling). -/
def delete_solutions (solution_arns : List String)
    (descPre : String → DescribeResult)
    (descPoll : Nat → String → DescribeResult)
    (wait_for_resources : Bool) : List ApiCall × Except DeleteError Unit :=
  let p := solutionPreDelete descPre solution_arns
  match p.snd with
  | Except.error e => (p.fst, Except.error e)
  | Except.ok _ =>
    (p.fst,
     (pollLoopAux descPoll wait_for_resources "solution(s)" "solutions"
       solution_arns 90).fst)

/-- `_delete_event_trackers`: classify and delete the listed event trackers
(the undeletable-status message says `Solution`, as in the source), then
poll. -/
def delete_event_trackers (trackerPages : List (List Resource))
    (descPoll : Nat → String → DescribeResult)
    (wait_for_resources : Bool) : List ApiCall × Except DeleteError Unit :=
  let c := classifyResources "Solution" ApiCall.deleteEventTracker
    trackerPages.flatten
  match c.snd with
  | Except.error e => (c.fst, Except.error e)
  | Except.ok arns =>
    (c.fst,
     (pollLoopAux descPoll wait_for_resources "event tracker(s)"
       "event trackers" arns 90).fst)

/-- `_delete_filters`: a single `list_filters(maxResults=100)` call, then
`delete_filter` for every listed filter unconditionally (no status
inspection), then the generic poll loop. -/
def delete_filters (filters : List Resource)
    (descPoll : Nat → String → DescribeResult)
    (wait_for_resources : Bool) : List ApiCall × Except DeleteError Unit :=
  let fs := filters.take 100
  (fs.map (fun f => ApiCall.deleteFilter f.arn),
   (pollLoopAux descPoll wait_for_resources "filter(s)" "filter"
     (fs.map (fun f => f.arn)) 90).fst)

/-- The schema-deletion pass at the end of `_delete_datasets_and_schemas`:
one `delete_schema` attempt per collected schema ARN, no polling; a
`ResourceInUseException` is logged and swallowed; any other `ClientError`
is re-raised.  The delete oracle is indexed by call number since deleting a
schema changes what a later call on the same ARN returns. -/
def deleteSchemasLoop (del : Nat → String → Except String Unit) :
    List String → Nat → List ApiCall × Except DeleteError Unit
  | [], _ => ([], Except.ok ())
  | arn :: rest, i =>
    match del i arn with
    | Except.ok _ =>
      let r := deleteSchemasLoop del rest (i + 1)
      (ApiCall.deleteSchema arn :: r.fst, r.snd)
    | Except.error code =>
      if code == "ResourceInUseException" then
        let r := deleteSchemasLoop del rest (i + 1)
        (ApiCall.deleteSchema arn :: r.fst, r.snd)
      else ([ApiCall.deleteSchema arn], Except.error (DeleteError.clientError code))

/-- `_delete_datasets_and_schemas`: list the datasets page by page, collect
each dataset's schema ARN (appended once per dataset, no deduplication),
classify and delete the datasets, poll them to absence, then run the
schema-deletion pass. -/
def delete_datasets_and_schemas (datasetPages : List (List DatasetInfo))
    (descPoll : Nat → String → DescribeResult)
    (delSchema : Nat → String → Except String Unit)
    (wait_for_resources : Bool) : List ApiCall × Except DeleteError Unit :=
  let ds := datasetPages.flatten
  let schema_arns := ds.map (fun d => d.schemaArn)
  let c := classifyResources "Dataset" ApiCall.deleteDataset
    (ds.map (fun d => Resource.mk d.arn d.status))
  match c.snd with
  | Except.error e => (c.fst, Except.error e)
  | Except.ok dsArns =>
    match (pollLoopAux descPoll wait_for_resources "dataset(s)" "datasets"
        dsArns 90).fst with
    | Except.error e => (c.fst, Except.error e)
    | Except.ok _ =>
      let s := deleteSchemasLoop delSchema schema_arns 0
      (c.fst ++ s.fst, s.snd)

/-- `_delete_dataset_group`: issue `delete_dataset_group` unconditionally
(no listing and no status classification), then run the dataset-group poll
loop. -/
def delete_dataset_group (dataset_group_arn : String)
    (desc : Nat → DescribeResult)
    (wait_for_resources : Bool) : List ApiCall × Except DeleteError Unit :=
  ([ApiCall.deleteDatasetGroup dataset_group_arn],
   (dsgPollLoopAux desc wait_for_resources 90).fst)

/-- `_get_dataset_group_arn`: walk the `list_dataset_groups` pages in order
and return the ARN of the first group whose name matches exactly, `none`
when no page contains a match.  Each page is a list of (name, ARN) pairs. -/
def get_dataset_group_arn (pages : List (List (String × String)))
    (dataset_group_name : String) : Option String :=
  match pages with
  | [] => none
  | page :: rest =>
    match page.find? (fun g => g.fst == dataset_group_name) with
    | some g => some g.snd
    | none => get_dataset_group_arn rest dataset_group_name

/-- `_get_solutions`: collect the solution ARNs from every page of the
`list_solutions` paginator. -/
def get_solutions (solutionPages : List (List String)) : List String :=
  solutionPages.flatten

/-- The remote world as one dataset group's run observes it: the listings
each phase retrieves and the describe / delete-schema oracles.  This stands
in for the boto3 `personalize` client. -/
structure GroupEnv where
  dsgPages : List (List (String × String))
  solutionPages : List (List String)
  recommenderPages : List (List Resource)
  campaignPagesOf : String → List (List Resource)
  descRecommender : Nat → String → DescribeResult
  descCampaign : Nat → String → DescribeResult
  descSolutionPre : String → DescribeResult
  descSolutionPoll : Nat → String → DescribeResult
  eventTrackerPages : List (List Resource)
  descEventTracker : Nat → String → DescribeResult
  filters : List Resource
  descFilter : Nat → String → DescribeResult
  datasetPages : List (List DatasetInfo)
  descDataset : Nat → String → DescribeResult
  delSchema : Nat → String → Except String Unit
  descDatasetGroup : Nat → DescribeResult

/-- The body of the per-name loop in `delete_dataset_groups`: resolve the
group ARN (warn and skip when absent), list the solutions, then run the six
deletion phases in order, propagating the first error. -/
def processGroup (dataset_group_name : String) (env : GroupEnv)
    (wait : Bool) : List ApiCall × Except DeleteError Unit :=
  match get_dataset_group_arn env.dsgPages dataset_group_name with
  | none => ([], Except.ok ())
  | some arn =>
    let solution_arns := get_solutions env.solutionPages
    let p1 := delete_recommenders_and_campaigns env.recommenderPages
      solution_arns env.campaignPagesOf env.descRecommender env.descCampaign wait
    match p1.snd with
    | Except.error e => (p1.fst, Except.error e)
    | Except.ok _ =>
      let p2 := delete_solutions solution_arns env.descSolutionPre
        env.descSolutionPoll wait
      match p2.snd with
      | Except.error e => (p1.fst ++ p2.fst, Except.error e)
      | Except.ok _ =>
        let p3 := delete_event_trackers env.eventTrackerPages
          env.descEventTracker wait
        match p3.snd with
        | Except.error e => (p1.fst ++ p2.fst ++ p3.fst, Except.error e)
        | Except.ok _ =>
          let p4 := delete_filters env.filters env.descFilter wait
          match p4.snd with
          | Except.error e =>
            (p1.fst ++ p2.fst ++ p3.fst ++ p4.fst, Except.error e)
          | Except.ok _ =>
            let p5 := delete_datasets_and_schemas env.datasetPages
              env.descDataset env.delSchema wait
            match p5.snd with
            | Except.error e =>
              (p1.fst ++ p2.fst ++ p3.fst ++ p4.fst ++ p5.fst, Except.error e)
            | Except.ok _ =>
              let p6 := delete_dataset_group arn env.descDatasetGroup wait
              (p1.fst ++ p2.fst ++ p3.fst ++ p4.fst ++ p5.fst ++ p6.fst,
               p6.snd)

/-- The `for dataset_group_name in dataset_group_names` loop of
`delete_dataset_groups`: groups are processed strictly one at a time in
input order and the first error aborts the remaining groups. -/
def processGroups (envOf : String → GroupEnv) (wait : Bool) :
    List String → List ApiCall × Except DeleteError Unit
  | [] => ([], Except.ok ())
  | name :: rest =>
    let g := processGroup name (envOf name) wait
    match g.snd with
    | Except.error e => (g.fst, Except.error e)
    | Except.ok _ =>
      let r := processGroups envOf wait rest
      (g.fst ++ r.fst, r.snd)

/-- `delete_dataset_groups`: the botocore minimum-version gate (abstracted
to a boolean, since the claims do not concern version parsing) followed by
the per-name loop.  The region argument only selects the client and is
absorbed into the environment. -/
def delete_dataset_groups (dataset_group_names : List String)
    (envOf : String → GroupEnv) (botocoreVersionOk : Bool)
    (wait_for_resources : Bool) : List ApiCall × Except DeleteError Unit :=
  if botocoreVersionOk then processGroups envOf wait_for_resources dataset_group_names
  else
    ([], Except.error (DeleteError.versionError
      "Current botocore version does not meet minimum required version of 1.23.15; please upgrade boto3/botocore and try again"))

/-- The phase (1-6) a mutating call belongs to, following the numbering in
the source's comments: recommenders and campaigns are phase 1, solutions 2,
event trackers 3, filters 4, datasets and schemas 5, the group itself 6. -/
def phaseRank (c : ApiCall) : Nat :=
  match c with
  | ApiCall.deleteRecommender _ => 1
  | ApiCall.deleteCampaign _ => 1
  | ApiCall.deleteSolution _ => 2
  | ApiCall.deleteEventTracker _ => 3
  | ApiCall.deleteFilter _ => 4
  | ApiCall.deleteDataset _ => 5
  | ApiCall.deleteSchema _ => 5
  | ApiCall.deleteDatasetGroup _ => 6

/-- A `delete_schema` outcome the schema pass tolerates: success or a
`ResourceInUseException`. -/
def okOrInUse (r : Except String Unit) : Bool :=
  match r with
  | Except.ok _ => true
  | Except.error code => code == "ResourceInUseException"

/-- A remote service in which every described resource is already absent:
every describe call fails with `ResourceNotFoundException`. -/
def absentPollDesc : Nat → String → DescribeResult :=
  fun _ _ => Except.error "ResourceNotFoundException"

/-- The schema service seen by a run whose dataset group has two datasets
sharing one schema: the first `delete_schema` call succeeds and removes the
schema, so the second call on the same ARN fails with
`ResourceNotFoundException`. -/
def duplicateSchemaDelete : Nat → String → Except String Unit :=
  fun i _ => if i == 0 then Except.ok () else Except.error "ResourceNotFoundException"

/-- A world holding one empty dataset group named `demo-group`: no child
resources, and every describe reports absence. -/
def sampleEnv : GroupEnv where
  dsgPages := [[("demo-group", "arn:demo-group")]]
  solutionPages := []
  recommenderPages := []
  campaignPagesOf := fun _ => []
  descRecommender := absentPollDesc
  descCampaign := absentPollDesc
  descSolutionPre := fun _ => Except.error "ResourceNotFoundException"
  descSolutionPoll := absentPollDesc
  eventTrackerPages := []
  descEventTracker := absentPollDesc
  filters := []
  descFilter := absentPollDesc
  datasetPages := []
  descDataset := absentPollDesc
  delSchema := fun _ _ => Except.ok ()
  descDatasetGroup := fun _ => Except.error "ResourceNotFoundException"

/-- [sampleEnv] with one recommender stuck in status `CREATE PENDING`. -/
def stuckRecommenderEnv : GroupEnv :=
  { sampleEnv with recommenderPages := [[Resource.mk "rec1" "CREATE PENDING"]] }

/-- Whether `_delete_solutions` issues a delete for a solution ARN, as a
function of the pre-delete describe responses: exactly when the describe
succeeds with status `ACTIVE` or `CREATE FAILED`. -/
def solutionDeletable (descPre : String → DescribeResult) (a : String) : Bool :=
  match descPre a with
  | Except.ok st => deletableStatus st
  | Except.error _ => false

/-- Pre-delete describe responses for three solutions: two deletable, one
already being deleted. -/
def solDescSample : String → DescribeResult :=
  fun a =>
    if a == "sol1" then Except.ok "ACTIVE"
    else if a == "sol2" then Except.ok "DELETE IN_PROGRESS"
    else Except.ok "CREATE FAILED"

/-- Pre-delete describe responses where `sol2` is stuck mid-creation. -/
def solDescBad : String → DescribeResult :=
  fun a => if a == "sol1" then Except.ok "ACTIVE" else Except.ok "CREATE IN_PROGRESS"

/-- Describe responses where `rec1` is already absent but `rec2` never goes
away: the tracked set shrinks to the straggler and then stays nonempty
until the deadline. -/
def stragglerDesc : Nat → String → DescribeResult :=
  fun _ x =>
    if x == "rec1" then Except.error "ResourceNotFoundException"
    else Except.ok "DELETE IN_PROGRESS"

theorem pollPassGo_fst_sublist (desc : String → DescribeResult) (fuel : Nat)
    (l : List String) (i : Nat) : (pollPassGo desc fuel l i).fst.Sublist l := by
  induction fuel generalizing l i with
  | zero => exact List.Sublist.refl l
  | succ f ih =>
    rw [pollPassGo]
    by_cases h : i < l.length
    · rw [dif_pos h]
      by_cases hnf : isNotFound (desc (l.get ⟨i, h⟩))
      · rw [if_pos hnf]
        exact (ih _ (i + 1)).trans (List.erase_sublist _ _)
      · rw [if_neg hnf]
        exact ih l (i + 1)
    · rw [dif_neg h]

theorem pollPassAux_nil (desc : String → DescribeResult) (i : Nat) :
    pollPassAux desc [] i = ([], []) := by
  unfold pollPassAux
  rw [show ([] : List String).length - i = 0 from by simp]
  rfl

theorem pollPassGo_visited_removed (desc : String → DescribeResult) (x : String)
    (fuel : Nat) (l : List String) (i : Nat) :
    l.Nodup → x ∈ (pollPassGo desc fuel l i).snd → isNotFound (desc x) = true →
    x ∉ (pollPassGo desc fuel l i).fst := by
  induction fuel generalizing l i with
  | zero =>
    intro _ hv _
    simp [pollPassGo] at hv
  | succ f ih =>
    intro hnd hv hx
    rw [pollPassGo] at hv ⊢
    by_cases h : i < l.length
    · rw [dif_pos h] at hv ⊢
      by_cases hnf : isNotFound (desc (l.get ⟨i, h⟩))
      · rw [if_pos hnf] at hv ⊢
        rcases List.mem_cons.mp hv with heq | hmem
        · subst heq
          intro hcon
          exact hnd.not_mem_erase ((pollPassGo_fst_sublist desc f _ (i + 1)).subset hcon)
        · exact ih _ (i + 1) (hnd.erase _) hmem hx
      · rw [if_neg hnf] at hv ⊢
        rcases List.mem_cons.mp hv with heq | hmem
        · subst heq
          exact absurd hx hnf
        · exact ih l (i + 1) hnd hmem hx
    · rw [dif_neg h] at hv
      simp at hv

theorem pollPassAux_fst_sublist (desc : String → DescribeResult)
    (l : List String) (i : Nat) : (pollPassAux desc l i).fst.Sublist l :=
  pollPassGo_fst_sublist desc (l.length - i) l i

theorem pollPassAux_visited_removed (desc : String → DescribeResult) (x : String)
    (l : List String) (i : Nat) :
    l.Nodup → x ∈ (pollPassAux desc l i).snd → isNotFound (desc x) = true →
    x ∉ (pollPassAux desc l i).fst :=
  pollPassGo_visited_removed desc x (l.length - i) l i

theorem pollPassAux_fst_of_no_notfound (desc : String → DescribeResult)
    (hno : ∀ x, isNotFound (desc x) = false) (l : List String) (i : Nat) :
    (pollPassAux desc l i).fst = l := by
  unfold pollPassAux
  generalize l.length - i = fuel
  induction fuel generalizing l i with
  | zero => rfl
  | succ f ih =>
    rw [pollPassGo]
    by_cases h : i < l.length
    · rw [dif_pos h, if_neg (by rw [hno _]; exact (by decide))]
      exact ih l (i + 1)
    · rw [dif_neg h]

theorem trackedAfter_shift (desc : Nat → String → DescribeResult) (l : List String) (k : Nat) :
    trackedAfter (fun p => desc (p + 1)) (pollPassAux (desc 0) l 0).fst k =
      trackedAfter desc l (k + 1) := by
  induction k with
  | zero => rfl
  | succ n ih =>
    rw [trackedAfter, ih]
    rfl

theorem pollLoopAux_ok_iff (desc : Nat → String → DescribeResult) (wait : Bool)
    (pl tl : String) (l : List String) (fuel : Nat) :
    (pollLoopAux desc wait pl tl l fuel).fst = Except.ok () ↔
      ∃ k, k ≤ (if wait then fuel else min fuel 1) ∧ trackedAfter desc l k = [] := by
  induction fuel generalizing desc l with
  | zero =>
    rw [pollLoopAux]
    constructor
    · intro h
      refine ⟨0, by cases wait <;> simp, ?_⟩
      by_cases he : l.isEmpty
      · simpa [trackedAfter, List.isEmpty_iff] using he
      · simp [he] at h
    · rintro ⟨k, hk, htr⟩
      have hk0 : k = 0 := by
        cases wait <;> simp [Nat.min_def] at hk <;> omega
      subst hk0
      have hl : l = [] := htr
      simp [hl]
  | succ f ih =>
    simp only [pollLoopAux]
    by_cases he : (pollPassAux (desc 0) l 0).fst.isEmpty
    · rw [if_pos he]
      constructor
      · intro _
        refine ⟨1, by cases wait <;> simp [Nat.min_def], ?_⟩
        show (pollPassAux (desc 0) (trackedAfter desc l 0) 0).fst = []
        exact List.isEmpty_iff.mp he
      · intro _
        rfl
    · rw [if_neg he]
      have hpass : trackedAfter desc l 1 ≠ [] := by
        intro hcon
        apply he
        rw [List.isEmpty_iff]
        exact hcon
      have hl0 : l ≠ [] := by
        intro hcon
        apply hpass
        show (pollPassAux (desc 0) (trackedAfter desc l 0) 0).fst = []
        rw [show trackedAfter desc l 0 = l from rfl, hcon, pollPassAux_nil]
      cases wait with
      | false =>
        simp only [Bool.false_eq_true, if_false]
        constructor
        · intro h
          exact absurd h (by simp)
        · rintro ⟨k, hk, htr⟩
          exfalso
          have hk1 : k ≤ 1 := by
            simp only [if_neg (by decide : ¬(false = true)), Nat.min_def] at hk
            split at hk <;> omega
          match k, htr with
          | 0, htr => exact hl0 htr
          | 1, htr => exact hpass htr
      | true =>
        rw [if_pos rfl]
        show (pollLoopAux (fun p => desc (p + 1)) true pl tl
            (pollPassAux (desc 0) l 0).fst f).fst = Except.ok () ↔ _
        rw [ih]
        constructor
        · rintro ⟨k, hk, htr⟩
          rw [trackedAfter_shift] at htr
          exact ⟨k + 1, by simp at hk ⊢; omega, htr⟩
        · rintro ⟨k, hk, htr⟩
          match k, htr with
          | 0, htr => exact absurd htr hl0
          | j + 1, htr =>
            refine ⟨j, by simp at hk ⊢; omega, ?_⟩
            rw [trackedAfter_shift]
            exact htr

theorem trackedAfter_empty_stable (desc : Nat → String → DescribeResult)
    (l : List String) (k k2 : Nat) (hk : k ≤ k2)
    (h : trackedAfter desc l k = []) : trackedAfter desc l k2 = [] := by
  induction k2 with
  | zero =>
    have hk0 : k = 0 := by omega
    subst hk0
    exact h
  | succ n ih =>
    by_cases hk2 : k ≤ n
    · rw [trackedAfter, ih hk2, pollPassAux_nil]
    · have hk1 : k = n + 1 := by omega
      subst hk1
      exact h

theorem pollLoopAux_wait_true_dichotomy (desc : Nat → String → DescribeResult)
    (pl tl : String) (l : List String) (fuel : Nat) :
    (pollLoopAux desc true pl tl l fuel).fst = Except.ok ()
    ∨ (pollLoopAux desc true pl tl l fuel).fst =
        Except.error (DeleteError.resourcePending
          ("Timed out waiting for all " ++ tl ++ " to be deleted")) := by
  induction fuel generalizing desc l with
  | zero =>
    rw [pollLoopAux]
    by_cases he : l.isEmpty
    · left
      simp [he]
    · right
      simp [he]
  | succ f ih =>
    simp only [pollLoopAux]
    by_cases he : (pollPassAux (desc 0) l 0).fst.isEmpty
    · left
      rw [if_pos he]
    · rw [if_neg he, if_pos trivial]
      exact ih _ _

theorem pollLoopAux_timeout_tracked (desc : Nat → String → DescribeResult)
    (pl tl : String) (l : List String) (fuel : Nat)
    (h : trackedAfter desc l fuel ≠ []) :
    (pollLoopAux desc true pl tl l fuel).fst =
      Except.error (DeleteError.resourcePending
        ("Timed out waiting for all " ++ tl ++ " to be deleted")) := by
  rcases pollLoopAux_wait_true_dichotomy desc pl tl l fuel with hok | herr
  · exfalso
    obtain ⟨k, hk, hempty⟩ := (pollLoopAux_ok_iff desc true pl tl l fuel).mp hok
    have hk2 : k ≤ fuel := by simpa using hk
    exact h (trackedAfter_empty_stable desc l k fuel hk2 hempty)
  · exact herr

theorem dsgPollLoopAux_ok_of_present (desc : Nat → DescribeResult) (fuel : Nat)
    (hok : ∀ p, ∃ st, desc p = Except.ok st) :
    (dsgPollLoopAux desc true fuel).fst = Except.ok () := by
  induction fuel generalizing desc with
  | zero => rfl
  | succ f ih =>
    obtain ⟨st, h⟩ := hok 0
    rw [dsgPollLoopAux, h]
    rw [if_pos rfl]
    show (dsgPollLoopAux (fun p => desc (p + 1)) true f).fst = _
    exact ih _ (fun p => hok (p + 1))

theorem pollPassAux_all_absent_shrink (desc : String → DescribeResult)
    (hall : ∀ x, isNotFound (desc x) = true) (l : List String) (hne : l ≠ []) :
    (pollPassAux desc l 0).fst.length < l.length := by
  match l with
  | x :: rest =>
    have h0 : 0 < (x :: rest).length := by simp
    unfold pollPassAux
    rw [show (x :: rest).length - 0 = rest.length + 1 from by simp]
    rw [pollPassGo, dif_pos h0, if_pos (hall _)]
    show (pollPassGo desc rest.length ((x :: rest).erase x) 1).fst.length < (x :: rest).length
    rw [List.erase_cons_head]
    have hlen := (pollPassGo_fst_sublist desc rest.length rest 1).length_le
    simp only [List.length_cons]
    omega

theorem pollLoopAux_all_absent_ok (desc : Nat → String → DescribeResult)
    (pl tl : String) (hall : ∀ p x, isNotFound (desc p x) = true)
    (l : List String) (fuel : Nat) (hlen : l.length ≤ fuel) :
    (pollLoopAux desc true pl tl l fuel).fst = Except.ok () := by
  induction fuel generalizing desc l with
  | zero =>
    have : l = [] := by
      cases l with
      | nil => rfl
      | cons a r => simp at hlen
    rw [this, pollLoopAux]
    rfl
  | succ f ih =>
    simp only [pollLoopAux]
    by_cases he : (pollPassAux (desc 0) l 0).fst.isEmpty
    · rw [if_pos he]
    · rw [if_neg he, if_pos trivial]
      show (pollLoopAux (fun p => desc (p + 1)) true pl tl
          (pollPassAux (desc 0) l 0).fst f).fst = _
      have hl0 : l ≠ [] := by
        intro hcon
        rw [hcon, pollPassAux_nil] at he
        exact he rfl
      have hshrink := pollPassAux_all_absent_shrink (desc 0) (hall 0) l hl0
      exact ih _ (fun p x => hall (p + 1) x) _ (by omega)

theorem pollLoopAux_fail_fast (desc : Nat → String → DescribeResult)
    (pl tl : String) (l : List String) (fuel : Nat)
    (hne : (pollPassAux (desc 0) l 0).fst ≠ []) :
    pollLoopAux desc false pl tl l (fuel + 1) =
      (Except.error (DeleteError.resourcePending
        ("There are " ++ toString (pollPassAux (desc 0) l 0).fst.length ++ " " ++ pl ++
          " still being deleted")), 0) := by
  simp only [pollLoopAux]
  rw [if_neg (by simp [List.isEmpty_iff, hne]), if_neg (by decide)]

theorem dsgPollLoopAux_fail_fast (desc : Nat → DescribeResult) (fuel : Nat)
    (st : String) (h : desc 0 = Except.ok st) :
    dsgPollLoopAux desc false (fuel + 1) =
      (Except.error (DeleteError.resourcePending "Dataset group still being deleted"), 0) := by
  rw [dsgPollLoopAux, h]
  rw [if_neg (by decide)]

theorem okStatus_false_parts (s : String) (h : okStatus s = false) :
    deletableStatus s = false ∧ strStartsWith s "DELETE" = false := by
  unfold okStatus at h
  exact Bool.or_eq_false_iff.mp h

theorem classifyResources_all_ok (kw : String) (mk : String → ApiCall)
    (rs : List Resource) (h : ∀ r ∈ rs, okStatus r.status = true) :
    classifyResources kw mk rs =
      ((rs.filter (fun r => deletableStatus r.status)).map (fun r => mk r.arn),
       Except.ok (rs.map (fun r => r.arn))) := by
  induction rs with
  | nil => rfl
  | cons r rest ih =>
    have hr := h r (by simp)
    have hrest : ∀ x ∈ rest, okStatus x.status = true := fun x hx => h x (by simp [hx])
    rw [classifyResources]
    by_cases hd : deletableStatus r.status
    · rw [if_pos hd, ih hrest]
      simp [List.filter_cons, hd, Except.map]
    · have hdel : strStartsWith r.status "DELETE" = true := by
        unfold okStatus at hr
        rcases Bool.or_eq_true_iff.mp hr with h1 | h1
        · exact absurd h1 hd
        · exact h1
      rw [if_neg hd, if_pos hdel, ih hrest]
      simp [List.filter_cons, hd, Except.map]

theorem classifyResources_first_bad (kw : String) (mk : String → ApiCall)
    (rs1 : List Resource) (r : Resource) (rs2 : List Resource)
    (h1 : ∀ x ∈ rs1, okStatus x.status = true) (hr : okStatus r.status = false) :
    classifyResources kw mk (rs1 ++ r :: rs2) =
      ((rs1.filter (fun x => deletableStatus x.status)).map (fun x => mk x.arn),
       Except.error (DeleteError.statusError
         (kw ++ " " ++ r.arn ++ " has a status of " ++ r.status ++
           " so cannot be deleted"))) := by
  induction rs1 with
  | nil =>
    obtain ⟨hd, hs⟩ := okStatus_false_parts r.status hr
    simp only [List.nil_append]
    rw [classifyResources, if_neg (by simp [hd]), if_neg (by simp [hs])]
    rfl
  | cons x rest ih =>
    have hx := h1 x (by simp)
    have hrest : ∀ y ∈ rest, okStatus y.status = true := fun y hy => h1 y (by simp [hy])
    rw [List.cons_append, classifyResources]
    by_cases hd : deletableStatus x.status
    · rw [if_pos hd, ih hrest]
      simp [List.filter_cons, hd, Except.map]
    · have hdel : strStartsWith x.status "DELETE" = true := by
        unfold okStatus at hx
        rcases Bool.or_eq_true_iff.mp hx with h2 | h2
        · exact absurd h2 hd
        · exact h2
      rw [if_neg hd, if_pos hdel, ih hrest]
      simp [List.filter_cons, hd, Except.map]

theorem solutionPreDelete_skip_absent (descPre : String → DescribeResult)
    (arn : String) (rest : List String)
    (h : descPre arn = Except.error "ResourceNotFoundException") :
    solutionPreDelete descPre (arn :: rest) = solutionPreDelete descPre rest := by
  simp only [solutionPreDelete, h]
  rw [if_pos (by decide)]

theorem solutionPreDelete_all_absent (descPre : String → DescribeResult)
    (arns : List String)
    (h : ∀ a ∈ arns, descPre a = Except.error "ResourceNotFoundException") :
    solutionPreDelete descPre arns = ([], Except.ok ()) := by
  induction arns with
  | nil => rfl
  | cons a rest ih =>
    rw [solutionPreDelete_skip_absent descPre a rest (h a (by simp))]
    exact ih (fun x hx => h x (by simp [hx]))

theorem solutionPreDelete_all_ok (descPre : String → DescribeResult)
    (arns : List String)
    (h : ∀ a ∈ arns, ∃ st, descPre a = Except.ok st ∧ okStatus st = true) :
    solutionPreDelete descPre arns =
      ((arns.filter (solutionDeletable descPre)).map ApiCall.deleteSolution,
       Except.ok ()) := by
  induction arns with
  | nil => rfl
  | cons a rest ih =>
    obtain ⟨st, hda, hok⟩ := h a (by simp)
    have hrest : ∀ x ∈ rest, ∃ s2, descPre x = Except.ok s2 ∧ okStatus s2 = true :=
      fun x hx => h x (by simp [hx])
    simp only [solutionPreDelete, hda]
    by_cases hd : deletableStatus st
    · rw [if_pos hd, ih hrest]
      have hfd : solutionDeletable descPre a = true := by
        unfold solutionDeletable
        rw [hda]
        exact hd
      simp [List.filter_cons, hfd]
    · have hdel : strStartsWith st "DELETE" = true := by
        unfold okStatus at hok
        rcases Bool.or_eq_true_iff.mp hok with h1 | h1
        · exact absurd h1 hd
        · exact h1
      have hfd : solutionDeletable descPre a = false := by
        unfold solutionDeletable
        rw [hda]
        simp only []
        cases hq : deletableStatus st
        · rfl
        · exact absurd hq hd
      rw [if_neg hd, if_pos hdel, ih hrest]
      simp [List.filter_cons, hfd]

theorem delete_solutions_all_ok (arns : List String)
    (descPre : String → DescribeResult) (descPoll : Nat → String → DescribeResult)
    (w : Bool)
    (h : ∀ a ∈ arns, ∃ st, descPre a = Except.ok st ∧ okStatus st = true) :
    delete_solutions arns descPre descPoll w =
      ((arns.filter (solutionDeletable descPre)).map ApiCall.deleteSolution,
       (pollLoopAux descPoll w "solution(s)" "solutions" arns 90).fst) := by
  simp only [delete_solutions, solutionPreDelete_all_ok descPre arns h]

theorem solutionPreDelete_first_bad (descPre : String → DescribeResult)
    (pre : List String) (arn : String) (rest : List String) (st : String)
    (hpre : ∀ a ∈ pre, ∃ s2, descPre a = Except.ok s2 ∧ okStatus s2 = true)
    (harn : descPre arn = Except.ok st) (hbad : okStatus st = false) :
    solutionPreDelete descPre (pre ++ arn :: rest) =
      ((pre.filter (solutionDeletable descPre)).map ApiCall.deleteSolution,
       Except.error (DeleteError.statusError
         ("Solution " ++ arn ++ " has a status of " ++ st ++
           " so cannot be deleted"))) := by
  induction pre with
  | nil =>
    obtain ⟨hd, hs⟩ := okStatus_false_parts st hbad
    simp only [List.nil_append, solutionPreDelete, harn]
    rw [if_neg (by simp [hd]), if_neg (by simp [hs])]
    rfl
  | cons a prest ih =>
    obtain ⟨st2, hda, hok⟩ := hpre a (by simp)
    have hprest : ∀ x ∈ prest, ∃ s2, descPre x = Except.ok s2 ∧ okStatus s2 = true :=
      fun x hx => hpre x (by simp [hx])
    rw [List.cons_append]
    simp only [solutionPreDelete, hda]
    by_cases hd : deletableStatus st2
    · rw [if_pos hd, ih hprest]
      have hfd : solutionDeletable descPre a = true := by
        unfold solutionDeletable
        rw [hda]
        exact hd
      simp [List.filter_cons, hfd]
    · have hdel : strStartsWith st2 "DELETE" = true := by
        unfold okStatus at hok
        rcases Bool.or_eq_true_iff.mp hok with h1 | h1
        · exact absurd h1 hd
        · exact h1
      have hfd : solutionDeletable descPre a = false := by
        unfold solutionDeletable
        rw [hda]
        simp only []
        cases hq : deletableStatus st2
        · rfl
        · exact absurd hq hd
      rw [if_neg hd, if_pos hdel, ih hprest]
      simp [List.filter_cons, hfd]

theorem deleteSchemasLoop_all_tolerated (del : Nat → String → Except String Unit)
    (arns : List String) (i : Nat)
    (h : ∀ j, (hj : j < arns.length) → okOrInUse (del (i + j) (arns.get ⟨j, hj⟩)) = true) :
    deleteSchemasLoop del arns i = (arns.map ApiCall.deleteSchema, Except.ok ()) := by
  induction arns generalizing i with
  | nil => rfl
  | cons a rest ih =>
    have h0 : okOrInUse (del i a) = true := by
      have := h 0 (by simp)
      simpa using this
    have hrest : ∀ j, (hj : j < rest.length) →
        okOrInUse (del (i + 1 + j) (rest.get ⟨j, hj⟩)) = true := by
      intro j hj
      have := h (j + 1) (by simp; omega)
      have harith : i + (j + 1) = i + 1 + j := by omega
      simpa [harith] using this
    rw [deleteSchemasLoop]
    cases hda : del i a with
    | ok u =>
      rw [ih (i + 1) hrest]
      rfl
    | error code =>
      rw [hda] at h0
      have hcode : (code == "ResourceInUseException") = true := h0
      simp only [hcode, if_pos]
      rw [ih (i + 1) hrest]
      rfl

theorem deleteSchemasLoop_error_propagates (del : Nat → String → Except String Unit)
    (pre : List String) (arn : String) (rest : List String) (i : Nat) (code : String)
    (hpre : ∀ j, (hj : j < pre.length) → okOrInUse (del (i + j) (pre.get ⟨j, hj⟩)) = true)
    (harn : del (i + pre.length) arn = Except.error code)
    (hcode : code ≠ "ResourceInUseException") :
    deleteSchemasLoop del (pre ++ arn :: rest) i =
      (pre.map ApiCall.deleteSchema ++ [ApiCall.deleteSchema arn],
       Except.error (DeleteError.clientError code)) := by
  induction pre generalizing i with
  | nil =>
    rw [show i + List.length [] = i from by simp] at harn
    simp only [List.nil_append, deleteSchemasLoop, harn]
    rw [if_neg (by simpa using hcode)]
    rfl
  | cons a prest ih =>
    have h0 : okOrInUse (del i a) = true := by
      have := hpre 0 (by simp)
      simpa using this
    have hprest : ∀ j, (hj : j < prest.length) →
        okOrInUse (del (i + 1 + j) (prest.get ⟨j, hj⟩)) = true := by
      intro j hj
      have := hpre (j + 1) (by simp; omega)
      have harith : i + (j + 1) = i + 1 + j := by omega
      simpa [harith] using this
    have harn2 : del (i + 1 + prest.length) arn = Except.error code := by
      have harith : i + (a :: prest).length = i + 1 + prest.length := by simp; omega
      rw [harith] at harn
      exact harn
    rw [List.cons_append, deleteSchemasLoop]
    cases hda : del i a with
    | ok u =>
      rw [ih (i + 1) hprest harn2]
      rfl
    | error c2 =>
      rw [hda] at h0
      have hc2 : (c2 == "ResourceInUseException") = true := h0
      simp only [hc2, if_pos]
      rw [ih (i + 1) hprest harn2]
      rfl

theorem classifyResources_fst_shape (kw : String) (mk : String → ApiCall)
    (rs : List Resource) : ∀ c ∈ (classifyResources kw mk rs).fst, ∃ a, c = mk a := by
  induction rs with
  | nil =>
    intro c hc
    simp [classifyResources] at hc
  | cons r rest ih =>
    rw [classifyResources]
    by_cases hd : deletableStatus r.status
    · rw [if_pos hd]
      intro c hc
      rcases List.mem_cons.mp hc with h | h
      · exact ⟨r.arn, h⟩
      · exact ih c h
    · by_cases hs : strStartsWith r.status "DELETE"
      · rw [if_neg hd, if_pos hs]
        intro c hc
        exact ih c hc
      · rw [if_neg hd, if_neg hs]
        intro c hc
        simp at hc

theorem classifyCampaigns_fst_shape (co : String → List (List Resource))
    (sa : List String) : ∀ c ∈ (classifyCampaigns co sa).fst, ∃ a, c = ApiCall.deleteCampaign a := by
  induction sa with
  | nil =>
    intro c hc
    simp [classifyCampaigns] at hc
  | cons s rest ih =>
    rw [classifyCampaigns]
    cases hsnd : (classifyResources "Campaign" ApiCall.deleteCampaign (co s).flatten).snd with
    | error e =>
      intro c hc
      exact classifyResources_fst_shape _ _ _ c hc
    | ok arns =>
      intro c hc
      rcases List.mem_append.mp hc with h | h
      · exact classifyResources_fst_shape _ _ _ c h
      · exact ih c h

theorem solutionPreDelete_fst_shape (descPre : String → DescribeResult)
    (arns : List String) : ∀ c ∈ (solutionPreDelete descPre arns).fst, ∃ a, c = ApiCall.deleteSolution a := by
  induction arns with
  | nil =>
    intro c hc
    simp [solutionPreDelete] at hc
  | cons a rest ih =>
    rw [solutionPreDelete]
    cases hda : descPre a with
    | ok st =>
      simp only []
      by_cases hd : deletableStatus st
      · rw [if_pos hd]
        intro c hc
        rcases List.mem_cons.mp hc with h | h
        · exact ⟨a, h⟩
        · exact ih c h
      · by_cases hs : strStartsWith st "DELETE"
        · rw [if_neg hd, if_pos hs]
          intro c hc
          exact ih c hc
        · rw [if_neg hd, if_neg hs]
          intro c hc
          simp at hc
    | error code =>
      simp only []
      by_cases hcode : (code == "ResourceNotFoundException") = true
      · rw [if_pos hcode]
        intro c hc
        exact ih c hc
      · rw [if_neg hcode]
        intro c hc
        simp at hc

theorem deleteSchemasLoop_fst_shape (del : Nat → String → Except String Unit)
    (arns : List String) (i : Nat) :
    ∀ c ∈ (deleteSchemasLoop del arns i).fst, ∃ a, c = ApiCall.deleteSchema a := by
  induction arns generalizing i with
  | nil =>
    intro c hc
    simp [deleteSchemasLoop] at hc
  | cons a rest ih =>
    rw [deleteSchemasLoop]
    cases hda : del i a with
    | ok u =>
      intro c hc
      rcases List.mem_cons.mp hc with h | h
      · exact ⟨a, h⟩
      · exact ih (i + 1) c h
    | error code =>
      simp only []
      by_cases hcode : (code == "ResourceInUseException") = true
      · rw [if_pos hcode]
        intro c hc
        rcases List.mem_cons.mp hc with h | h
        · exact ⟨a, h⟩
        · exact ih (i + 1) c h
      · rw [if_neg hcode]
        intro c hc
        rcases List.mem_cons.mp hc with h | h
        · exact ⟨a, h⟩
        · simp at h

/-- Ordering of trace entries by teardown phase. -/
def RankLe (a b : ApiCall) : Prop := phaseRank a ≤ phaseRank b

theorem drac_fst_rank (rp : List (List Resource)) (sa : List String)
    (co : String → List (List Resource)) (d1 d2 : Nat → String → DescribeResult)
    (w : Bool) :
    ∀ c ∈ (delete_recommenders_and_campaigns rp sa co d1 d2 w).fst, phaseRank c = 1 := by
  intro c hc
  unfold delete_recommenders_and_campaigns at hc
  simp only [] at hc
  have hrec : ∀ x ∈ (classifyResources "Recommender" ApiCall.deleteRecommender rp.flatten).fst,
      phaseRank x = 1 := by
    intro x hx
    obtain ⟨a, rfl⟩ := classifyResources_fst_shape _ _ _ x hx
    rfl
  have hcamp : ∀ x ∈ (classifyCampaigns co sa).fst, phaseRank x = 1 := by
    intro x hx
    obtain ⟨a, rfl⟩ := classifyCampaigns_fst_shape _ _ x hx
    rfl
  split at hc
  · exact hrec c hc
  · split at hc
    · rcases List.mem_append.mp hc with h | h
      · exact hrec c h
      · exact hcamp c h
    · split at hc
      · rcases List.mem_append.mp hc with h | h
        · exact hrec c h
        · exact hcamp c h
      · rcases List.mem_append.mp hc with h | h
        · exact hrec c h
        · exact hcamp c h

theorem delete_solutions_fst_rank (sa : List String) (dp : String → DescribeResult)
    (dq : Nat → String → DescribeResult) (w : Bool) :
    ∀ c ∈ (delete_solutions sa dp dq w).fst, phaseRank c = 2 := by
  intro c hc
  unfold delete_solutions at hc
  simp only [] at hc
  have hsol : ∀ x ∈ (solutionPreDelete dp sa).fst, phaseRank x = 2 := by
    intro x hx
    obtain ⟨a, rfl⟩ := solutionPreDelete_fst_shape _ _ x hx
    rfl
  split at hc
  · exact hsol c hc
  · exact hsol c hc

theorem delete_event_trackers_fst_rank (tp : List (List Resource))
    (dq : Nat → String → DescribeResult) (w : Bool) :
    ∀ c ∈ (delete_event_trackers tp dq w).fst, phaseRank c = 3 := by
  intro c hc
  unfold delete_event_trackers at hc
  simp only [] at hc
  have het : ∀ x ∈ (classifyResources "Solution" ApiCall.deleteEventTracker tp.flatten).fst,
      phaseRank x = 3 := by
    intro x hx
    obtain ⟨a, rfl⟩ := classifyResources_fst_shape _ _ _ x hx
    rfl
  split at hc
  · exact het c hc
  · exact het c hc

theorem delete_filters_fst_rank (fs : List Resource)
    (dq : Nat → String → DescribeResult) (w : Bool) :
    ∀ c ∈ (delete_filters fs dq w).fst, phaseRank c = 4 := by
  intro c hc
  unfold delete_filters at hc
  simp only [List.mem_map] at hc
  obtain ⟨f, _, rfl⟩ := hc
  rfl

theorem ddas_fst_rank (dp : List (List DatasetInfo))
    (dq : Nat → String → DescribeResult) (del : Nat → String → Except String Unit)
    (w : Bool) :
    ∀ c ∈ (delete_datasets_and_schemas dp dq del w).fst, phaseRank c = 5 := by
  intro c hc
  unfold delete_datasets_and_schemas at hc
  simp only [] at hc
  have hds : ∀ x ∈ (classifyResources "Dataset" ApiCall.deleteDataset
      (dp.flatten.map (fun d => Resource.mk d.arn d.status))).fst, phaseRank x = 5 := by
    intro x hx
    obtain ⟨a, rfl⟩ := classifyResources_fst_shape _ _ _ x hx
    rfl
  have hsc : ∀ x ∈ (deleteSchemasLoop del (dp.flatten.map (fun d => d.schemaArn)) 0).fst,
      phaseRank x = 5 := by
    intro x hx
    obtain ⟨a, rfl⟩ := deleteSchemasLoop_fst_shape _ _ _ x hx
    rfl
  split at hc
  · exact hds c hc
  · split at hc
    · exact hds c hc
    · rcases List.mem_append.mp hc with h | h
      · exact hds c h
      · exact hsc c h

theorem ddg_fst_rank (arn : String) (dq : Nat → DescribeResult) (w : Bool) :
    ∀ c ∈ (delete_dataset_group arn dq w).fst, phaseRank c = 6 := by
  intro c hc
  unfold delete_dataset_group at hc
  rcases List.mem_singleton.mp hc with rfl
  rfl

theorem pairwise_rank_of_const {l : List ApiCall} {k : Nat}
    (h : ∀ c ∈ l, phaseRank c = k) : l.Pairwise RankLe := by
  induction l with
  | nil => exact List.Pairwise.nil
  | cons a t ih =>
    refine List.Pairwise.cons ?_ (ih (fun c hc => h c (by simp [hc])))
    intro b hb
    unfold RankLe
    rw [h a (by simp), h b (by simp [hb])]

theorem pairwise_rank_append {l1 l2 : List ApiCall}
    (h1 : l1.Pairwise RankLe) (h2 : l2.Pairwise RankLe)
    (hb : ∀ a ∈ l1, ∀ b ∈ l2, RankLe a b) : (l1 ++ l2).Pairwise RankLe :=
  List.pairwise_append.mpr ⟨h1, h2, hb⟩

theorem pairwise_rank_snoc_seg {k : Nat} {l1 l2 : List ApiCall}
    (h1 : l1.Pairwise RankLe) (hub : ∀ c ∈ l1, phaseRank c ≤ k)
    (h2 : ∀ c ∈ l2, phaseRank c = k) : (l1 ++ l2).Pairwise RankLe := by
  refine List.pairwise_append.mpr ⟨h1, pairwise_rank_of_const h2, ?_⟩
  intro a ha b hb
  unfold RankLe
  rw [h2 b hb]
  exact hub a ha

theorem allLe_append {k : Nat} {l1 l2 : List ApiCall}
    (h1 : ∀ c ∈ l1, phaseRank c ≤ k) (h2 : ∀ c ∈ l2, phaseRank c ≤ k) :
    ∀ c ∈ l1 ++ l2, phaseRank c ≤ k := by
  intro c hc
  rcases List.mem_append.mp hc with h | h
  · exact h1 c h
  · exact h2 c h

theorem processGroup_rank_sorted (name : String) (env : GroupEnv) (wait : Bool) :
    (processGroup name env wait).fst.Pairwise RankLe := by
  unfold processGroup
  cases hdsg : get_dataset_group_arn env.dsgPages name with
  | none => exact List.Pairwise.nil
  | some arn =>
    simp only []
    have h1 := drac_fst_rank env.recommenderPages (get_solutions env.solutionPages)
      env.campaignPagesOf env.descRecommender env.descCampaign wait
    have h2 := delete_solutions_fst_rank (get_solutions env.solutionPages)
      env.descSolutionPre env.descSolutionPoll wait
    have h3 := delete_event_trackers_fst_rank env.eventTrackerPages
      env.descEventTracker wait
    have h4 := delete_filters_fst_rank env.filters env.descFilter wait
    have h5 := ddas_fst_rank env.datasetPages env.descDataset env.delSchema wait
    have h6 := ddg_fst_rank arn env.descDatasetGroup wait
    have P1 := pairwise_rank_of_const h1
    have P12 := pairwise_rank_snoc_seg P1
      (fun c hc => by rw [h1 c hc]; omega) h2
    have u12 : ∀ c ∈ (delete_recommenders_and_campaigns env.recommenderPages
        (get_solutions env.solutionPages) env.campaignPagesOf env.descRecommender
        env.descCampaign wait).fst ++ (delete_solutions (get_solutions env.solutionPages)
        env.descSolutionPre env.descSolutionPoll wait).fst, phaseRank c ≤ 3 :=
      allLe_append (fun c hc => by rw [h1 c hc]; omega)
        (fun c hc => by rw [h2 c hc]; omega)
    have P123 := pairwise_rank_snoc_seg P12 u12 h3
    have u123 := allLe_append (k := 4) (allLe_append
        (fun c hc => by rw [h1 c hc]; omega)
        (fun c hc => by rw [h2 c hc]; omega))
      (fun c hc => by rw [h3 c hc]; omega)
    have P1234 := pairwise_rank_snoc_seg P123 u123 h4
    have u1234 := allLe_append (k := 5) (allLe_append (allLe_append
        (fun c hc => by rw [h1 c hc]; omega)
        (fun c hc => by rw [h2 c hc]; omega))
        (fun c hc => by rw [h3 c hc]; omega))
      (fun c hc => by rw [h4 c hc]; omega)
    have P12345 := pairwise_rank_snoc_seg P1234 u1234 h5
    have u12345 := allLe_append (k := 6) (allLe_append (allLe_append (allLe_append
        (fun c hc => by rw [h1 c hc]; omega)
        (fun c hc => by rw [h2 c hc]; omega))
        (fun c hc => by rw [h3 c hc]; omega))
        (fun c hc => by rw [h4 c hc]; omega))
      (fun c hc => by rw [h5 c hc]; omega)
    have P123456 := pairwise_rank_snoc_seg P12345 u12345 h6
    split
    · exact P1
    · split
      · exact P12
      · split
        · exact P123
        · split
          · exact P1234
          · split
            · exact P12345
            · exact P123456

theorem processGroups_cons_error (envOf : String → GroupEnv) (wait : Bool)
    (name : String) (rest : List String) (t : List ApiCall) (e : DeleteError)
    (h : processGroup name (envOf name) wait = (t, Except.error e)) :
    processGroups envOf wait (name :: rest) = (t, Except.error e) := by
  simp only [processGroups, h]

theorem processGroup_skip (name : String) (env : GroupEnv) (wait : Bool)
    (h : get_dataset_group_arn env.dsgPages name = none) :
    processGroup name env wait = ([], Except.ok ()) := by
  simp only [processGroup, h]

theorem processGroups_cons_skip (envOf : String → GroupEnv) (wait : Bool)
    (name : String) (rest : List String)
    (h : get_dataset_group_arn (envOf name).dsgPages name = none) :
    processGroups envOf wait (name :: rest) = processGroups envOf wait rest := by
  simp only [processGroups, processGroup_skip name (envOf name) wait h]
  simp

theorem get_dataset_group_arn_none_iff (pages : List (List (String × String)))
    (name : String) :
    get_dataset_group_arn pages name = none ↔
      ∀ page ∈ pages, ∀ g ∈ page, g.fst ≠ name := by
  induction pages with
  | nil => simp [get_dataset_group_arn]
  | cons page rest ih =>
    rw [get_dataset_group_arn]
    cases hf : page.find? (fun g => g.fst == name) with
    | some g =>
      simp only []
      constructor
      · intro h
        cases h
      · intro h
        exfalso
        have hm := List.mem_of_find?_eq_some hf
        have hp := List.find?_some hf
        exact h page (by simp) g hm (by simpa using hp)
    | none =>
      simp only []
      rw [ih]
      constructor
      · intro h
        intro p hp g hg
        rcases List.mem_cons.mp hp with rfl | hp2
        · have := List.find?_eq_none.mp hf g hg
          simpa using this
        · exact h p hp2 g hg
      · intro h
        intro p hp g hg
        exact h p (by simp [hp]) g hg

/-- Claim C1 (corrected): for the recommender, campaign, event-tracker and
dataset kinds, every listed resource is classified by status before any
delete: `ACTIVE`/`CREATE FAILED` resources are submitted for deletion
exactly once, `DELETE...` resources are tracked without being re-submitted,
and the first resource in any other status aborts the phase with a
descriptive error before a delete is issued for it.  For solutions the same
classification runs on the pre-delete describe responses: an
`ACTIVE`/`CREATE FAILED` solution is deleted exactly once, a `DELETE...`
solution is not re-submitted, every listed solution is still polled (waited
on), and the first solution describing with any other status aborts the
phase before being deleted, with the deletes of the preceding solutions as
the whole trace.  Filters and the dataset group itself are exempt: every
listed filter is deleted unconditionally with no status inspection, and the
dataset-group delete is issued unconditionally. -/
theorem claim_C1 :
    (∀ kw mk rs, (∀ r ∈ rs, okStatus r.status = true) →
      classifyResources kw mk rs =
        ((rs.filter (fun r => deletableStatus r.status)).map (fun r => mk r.arn),
         Except.ok (rs.map (fun r => r.arn))))
    ∧ (∀ kw mk rs1 r rs2, (∀ x ∈ rs1, okStatus x.status = true) →
        okStatus r.status = false →
        classifyResources kw mk (rs1 ++ r :: rs2) =
          ((rs1.filter (fun x => deletableStatus x.status)).map (fun x => mk x.arn),
           Except.error (DeleteError.statusError
             (kw ++ " " ++ r.arn ++ " has a status of " ++ r.status ++
               " so cannot be deleted"))))
    ∧ (∀ arns descPre descPoll w,
        (∀ a ∈ arns, ∃ st, descPre a = Except.ok st ∧ okStatus st = true) →
        delete_solutions arns descPre descPoll w =
          ((arns.filter (solutionDeletable descPre)).map ApiCall.deleteSolution,
           (pollLoopAux descPoll w "solution(s)" "solutions" arns 90).fst))
    ∧ (∀ descPre pre arn rest st,
        (∀ a ∈ pre, ∃ s2, descPre a = Except.ok s2 ∧ okStatus s2 = true) →
        descPre arn = Except.ok st → okStatus st = false →
        solutionPreDelete descPre (pre ++ arn :: rest) =
          ((pre.filter (solutionDeletable descPre)).map ApiCall.deleteSolution,
           Except.error (DeleteError.statusError
             ("Solution " ++ arn ++ " has a status of " ++ st ++
               " so cannot be deleted"))))
    ∧ (∀ fs dq w, (delete_filters fs dq w).fst =
        (fs.take 100).map (fun f => ApiCall.deleteFilter f.arn))
    ∧ (∀ arn dq w, (delete_dataset_group arn dq w).fst =
        [ApiCall.deleteDatasetGroup arn]) :=
  ⟨classifyResources_all_ok, classifyResources_first_bad, delete_solutions_all_ok,
   solutionPreDelete_first_bad, fun _ _ _ => rfl, fun _ _ _ => rfl⟩

/-- Claim C1 witness: concrete runs of the shared classification step (the
deletable/already-deleting case and the first-bad-status case) and of the
solutions phase (one `ACTIVE` and one `CREATE FAILED` solution each deleted
once, a `DELETE IN_PROGRESS` one not re-submitted, and a solution stuck
mid-creation aborting the phase after the deletes before it). -/
theorem claim_C1_witness :
    classifyResources "Recommender" ApiCall.deleteRecommender
        [Resource.mk "r1" "ACTIVE", Resource.mk "r2" "DELETE PENDING"] =
      ([ApiCall.deleteRecommender "r1"], Except.ok ["r1", "r2"])
    ∧ classifyResources "Campaign" ApiCall.deleteCampaign
        [Resource.mk "c1" "ACTIVE", Resource.mk "c2" "CREATE PENDING"] =
      ([ApiCall.deleteCampaign "c1"], Except.error (DeleteError.statusError
        "Campaign c2 has a status of CREATE PENDING so cannot be deleted"))
    ∧ delete_solutions ["sol1", "sol2", "sol3"] solDescSample absentPollDesc true =
      ([ApiCall.deleteSolution "sol1", ApiCall.deleteSolution "sol3"], Except.ok ())
    ∧ solutionPreDelete solDescBad ["sol1", "sol2"] =
      ([ApiCall.deleteSolution "sol1"], Except.error (DeleteError.statusError
        "Solution sol2 has a status of CREATE IN_PROGRESS so cannot be deleted")) :=
  ⟨claim_C1.1 "Recommender" ApiCall.deleteRecommender _ (by decide),
   claim_C1.2.1 "Campaign" ApiCall.deleteCampaign [Resource.mk "c1" "ACTIVE"]
     (Resource.mk "c2" "CREATE PENDING") [] (by decide) (by decide),
   claim_C1.2.2.1 ["sol1", "sol2", "sol3"] solDescSample absentPollDesc true
     (by
       intro a ha
       fin_cases ha
       · exact ⟨"ACTIVE", rfl, rfl⟩
       · exact ⟨"DELETE IN_PROGRESS", rfl, rfl⟩
       · exact ⟨"CREATE FAILED", rfl, rfl⟩),
   claim_C1.2.2.2.1 solDescBad ["sol1"] "sol2" [] "CREATE IN_PROGRESS"
     (by
       intro a ha
       fin_cases ha
       exact ⟨"ACTIVE", rfl, rfl⟩)
     rfl (by decide)⟩

/-- Claim C1 counterexample: a filter whose status is `CREATE PENDING` — an
undeletable status under the claim — is nonetheless submitted for deletion,
and the phase succeeds instead of failing with a descriptive error. -/
theorem claim_C1_counterexample :
    delete_filters [Resource.mk "f1" "CREATE PENDING"] absentPollDesc true =
      ([ApiCall.deleteFilter "f1"], Except.ok ()) := rfl

/-- Claim C2 (corrected): the poll loop shared by the recommender, campaign,
solution, event-tracker, filter and dataset phases raises the
`ResourcePending` timeout whenever the tracked set is still nonempty after
all the passes its 30-minute fuel allows — regardless of how many of the
resources were confirmed absent along the way; the dataset-group poll loop
instead returns normally when the deadline elapses with the group still
present. -/
theorem claim_C2 :
    (∀ desc pl tl l fuel, trackedAfter desc l fuel ≠ [] →
      (pollLoopAux desc true pl tl l fuel).fst =
        Except.error (DeleteError.resourcePending
          ("Timed out waiting for all " ++ tl ++ " to be deleted")))
    ∧ (∀ desc fuel, (∀ p, ∃ st, desc p = Except.ok st) →
      (dsgPollLoopAux desc true fuel).fst = Except.ok ()) :=
  ⟨pollLoopAux_timeout_tracked, dsgPollLoopAux_ok_of_present⟩

set_option maxRecDepth 8192 in
/-- Claim C2 witness: of two tracked recommenders, `rec1` is confirmed
absent in the first pass but `rec2` is still reported present at every
describe, so it is still tracked when the deadline elapses and the timeout
is raised; the dataset group in the straggler situation is not. -/
theorem claim_C2_witness :
    (pollLoopAux stragglerDesc true "recommender(s)"
      "recommenders" ["rec1", "rec2"] 90).fst =
      Except.error (DeleteError.resourcePending
        "Timed out waiting for all recommenders to be deleted")
    ∧ (dsgPollLoopAux (fun _ => Except.ok "DELETE PENDING") true 90).fst = Except.ok () :=
  ⟨claim_C2.1 stragglerDesc "recommender(s)" "recommenders" ["rec1", "rec2"] 90
     (by decide),
   claim_C2.2 (fun _ => Except.ok "DELETE PENDING") 90
     (fun _ => ⟨"DELETE PENDING", rfl⟩)⟩

/-- Claim C2 counterexample: `_delete_dataset_group` with a group that the
service reports as present at every describe for the whole 30-minute window
returns normally (no `ResourcePending` raised), because the loop has no
post-loop timeout check. -/
theorem claim_C2_counterexample :
    delete_dataset_group "arn:demo-group" (fun _ => Except.ok "DELETE PENDING") true =
      ([ApiCall.deleteDatasetGroup "arn:demo-group"], Except.ok ()) := rfl

/-- Claim C3 (confirmed): during a poll pass, (a) the tracked list after the
pass is a sublist of the list before it — the tracked set only ever
shrinks; (b) with distinct ARNs, every resource whose describe call was
actually made and returned `ResourceNotFoundException` is removed; (c) the
poll loop reports success exactly when the tracked set becomes empty within
the allotted passes (one pass when `wait_for_resources` is false). -/
theorem claim_C3 :
    (∀ desc l i, ((pollPassAux desc l i).fst).Sublist l)
    ∧ (∀ desc x l i, l.Nodup → x ∈ (pollPassAux desc l i).snd →
        isNotFound (desc x) = true → x ∉ (pollPassAux desc l i).fst)
    ∧ (∀ desc wait pl tl l fuel,
        (pollLoopAux desc wait pl tl l fuel).fst = Except.ok () ↔
          ∃ k, k ≤ (if wait then fuel else min fuel 1) ∧ trackedAfter desc l k = []) :=
  ⟨pollPassAux_fst_sublist, pollPassAux_visited_removed, pollLoopAux_ok_iff⟩

/-- Claim C3 witness: in a pass over two tracked ARNs that are both already
absent, the first one is described and removed. -/
theorem claim_C3_witness :
    "f1" ∉ (pollPassAux (fun _ => Except.error "ResourceNotFoundException")
      ["f1", "f2"] 0).fst :=
  claim_C3.2.1 (fun _ => Except.error "ResourceNotFoundException") "f1" ["f1", "f2"] 0
    (by decide) (by decide) rfl

/-- Claim C4 (confirmed): with `wait_for_resources = false` and a nonempty
tracked list after the first poll pass, the generic poll loop raises
`ResourcePending` having executed zero sleeps; the dataset-group loop does
the same when the first describe still finds the group. -/
theorem claim_C4 :
    (∀ desc pl tl l fuel, (pollPassAux (desc 0) l 0).fst ≠ [] →
      pollLoopAux desc false pl tl l (fuel + 1) =
        (Except.error (DeleteError.resourcePending
          ("There are " ++ toString (pollPassAux (desc 0) l 0).fst.length ++ " " ++
            pl ++ " still being deleted")), 0))
    ∧ (∀ desc fuel st, desc 0 = Except.ok st →
      dsgPollLoopAux desc false (fuel + 1) =
        (Except.error (DeleteError.resourcePending
          "Dataset group still being deleted"), 0)) :=
  ⟨pollLoopAux_fail_fast, dsgPollLoopAux_fail_fast⟩

/-- Claim C4 witness: two filters tracked with `wait=false` fail fast with
zero sleeps, and likewise the dataset-group loop. -/
theorem claim_C4_witness :
    pollLoopAux absentPollDesc false "filter(s)" "filter" ["f1", "f2"] 90 =
      (Except.error (DeleteError.resourcePending
        "There are 1 filter(s) still being deleted"), 0)
    ∧ dsgPollLoopAux (fun _ => Except.ok "DELETE PENDING") false 90 =
      (Except.error (DeleteError.resourcePending
        "Dataset group still being deleted"), 0) :=
  ⟨claim_C4.1 absentPollDesc "filter(s)" "filter" ["f1", "f2"] 89 (by decide),
   claim_C4.2 (fun _ => Except.ok "DELETE PENDING") 89 "DELETE PENDING" rfl⟩

/-- Claim C5 (confirmed): (a) if processing of a group fails, the whole
invocation stops with that group's trace and error, so no phase of any
later group in the input list is attempted; (b) within one group the trace
of mutating calls is ordered by phase: recommender/campaign deletes, then
solution deletes, then event-tracker deletes, then filter deletes, then
dataset and schema deletes, then the dataset-group delete. -/
theorem claim_C5 :
    (∀ envOf wait name rest t e,
      processGroup name (envOf name) wait = (t, Except.error e) →
      processGroups envOf wait (name :: rest) = (t, Except.error e))
    ∧ (∀ name env wait, (processGroup name env wait).fst.Pairwise RankLe) :=
  ⟨processGroups_cons_error, processGroup_rank_sorted⟩

/-- Claim C5 witness: a stuck recommender in the first group aborts the run
before the second group contributes anything. -/
theorem claim_C5_witness :
    processGroups (fun _ => stuckRecommenderEnv) true ["demo-group", "second-group"] =
      ([], Except.error (DeleteError.statusError
        "Recommender rec1 has a status of CREATE PENDING so cannot be deleted")) :=
  claim_C5.1 (fun _ => stuckRecommenderEnv) true "demo-group" ["second-group"] []
    (DeleteError.statusError
      "Recommender rec1 has a status of CREATE PENDING so cannot be deleted") rfl

/-- Claim C6 (confirmed): schema deletion is attempted exactly once per
collected schema ARN with no polling: if every attempt succeeds or fails
with `ResourceInUseException` the pass issues one delete per ARN and
succeeds; the first failure with any other error code stops the pass there
and propagates as a re-raised client error. -/
theorem claim_C6 :
    (∀ del arns i,
      (∀ j, (hj : j < arns.length) → okOrInUse (del (i + j) (arns.get ⟨j, hj⟩)) = true) →
      deleteSchemasLoop del arns i = (arns.map ApiCall.deleteSchema, Except.ok ()))
    ∧ (∀ del pre arn rest i code,
        (∀ j, (hj : j < pre.length) → okOrInUse (del (i + j) (pre.get ⟨j, hj⟩)) = true) →
        del (i + pre.length) arn = Except.error code →
        code ≠ "ResourceInUseException" →
        deleteSchemasLoop del (pre ++ arn :: rest) i =
          (pre.map ApiCall.deleteSchema ++ [ApiCall.deleteSchema arn],
           Except.error (DeleteError.clientError code))) :=
  ⟨deleteSchemasLoop_all_tolerated, deleteSchemasLoop_error_propagates⟩

/-- Claim C6 witness: two schemas whose deletes both report in-use are each
attempted once and the pass succeeds; a schema whose delete reports
not-found aborts the pass. -/
theorem claim_C6_witness :
    deleteSchemasLoop (fun _ _ => Except.error "ResourceInUseException") ["s1", "s2"] 0 =
      ([ApiCall.deleteSchema "s1", ApiCall.deleteSchema "s2"], Except.ok ())
    ∧ deleteSchemasLoop duplicateSchemaDelete ["s1", "s1"] 0 =
      ([ApiCall.deleteSchema "s1", ApiCall.deleteSchema "s1"],
       Except.error (DeleteError.clientError "ResourceNotFoundException")) :=
  ⟨claim_C6.1 (fun _ _ => Except.error "ResourceInUseException") ["s1", "s2"] 0 (by decide),
   claim_C6.2 duplicateSchemaDelete ["s1"] "s1" [] 0 "ResourceNotFoundException"
     (by decide) rfl (by decide)⟩

/-- Claim C7 (confirmed): a name whose paginated exact-name lookup yields no
dataset group is skipped — the run continues with the remaining names as if
the name had not been given, the skipped name contributes no mutating call
and no error, and the lookup yields nothing exactly when no page holds an
exact name match. -/
theorem claim_C7 :
    (∀ envOf wait name rest, get_dataset_group_arn (envOf name).dsgPages name = none →
      processGroups envOf wait (name :: rest) = processGroups envOf wait rest)
    ∧ (∀ name env wait, get_dataset_group_arn env.dsgPages name = none →
      processGroup name env wait = ([], Except.ok ()))
    ∧ (∀ pages name, get_dataset_group_arn pages name = none ↔
        ∀ page ∈ pages, ∀ g ∈ page, g.fst ≠ name) :=
  ⟨processGroups_cons_skip, processGroup_skip, get_dataset_group_arn_none_iff⟩

/-- Claim C7 witness: tearing down a name that no longer exists performs
zero mutating calls and leaves the rest of the run unchanged. -/
theorem claim_C7_witness :
    processGroups (fun _ => sampleEnv) true ["missing-group"] =
      processGroups (fun _ => sampleEnv) true []
    ∧ processGroup "missing-group" sampleEnv true = ([], Except.ok ()) :=
  ⟨claim_C7.1 (fun _ => sampleEnv) true "missing-group" [] (by decide),
   claim_C7.2.1 "missing-group" sampleEnv true (by decide)⟩

/-- Claim C8 (confirmed): two datasets of the same group referencing the same
schema collect that schema ARN twice (no deduplication); the first
`delete_schema` succeeds, the second call on the already-deleted schema
fails with `ResourceNotFoundException`, which is not the tolerated in-use
code, so the error propagates and aborts the run after both attempts were
issued. -/
theorem claim_C8 :
    delete_datasets_and_schemas
        [[DatasetInfo.mk "d1" "ACTIVE" "s1", DatasetInfo.mk "d2" "ACTIVE" "s1"]]
        absentPollDesc duplicateSchemaDelete true =
      ([ApiCall.deleteDataset "d1", ApiCall.deleteDataset "d2",
        ApiCall.deleteSchema "s1", ApiCall.deleteSchema "s1"],
       Except.error (DeleteError.clientError "ResourceNotFoundException")) := rfl

/-- Claim C9 (confirmed): with two consecutively tracked resources both
already absent, one poll pass describes only the first (Python's
`list.remove` during iteration skips the element after a removed one), so
the second stays tracked; with `wait_for_resources = false` the filters
phase therefore raises `ResourcePending` even though every describe the
service would answer reports absence. -/
theorem claim_C9 :
    pollPassAux (fun _ => Except.error "ResourceNotFoundException") ["f1", "f2"] 0 =
      (["f2"], ["f1"])
    ∧ delete_filters [Resource.mk "f1" "ACTIVE", Resource.mk "f2" "ACTIVE"]
        absentPollDesc false =
      ([ApiCall.deleteFilter "f1", ApiCall.deleteFilter "f2"],
       Except.error (DeleteError.resourcePending
         "There are 1 filter(s) still being deleted")) :=
  ⟨rfl, rfl⟩

/-- Claim C10 (confirmed): `_delete_solutions` swallows a
`ResourceNotFoundException` from the pre-delete describe and skips that
solution, so with the default `wait_for_resources = true` the phase issues
no delete and succeeds when every listed solution is already absent (the
90-pass deadline accommodates any realistic list; we bound it by 90). -/
theorem claim_C10 :
    (∀ descPre arn rest, descPre arn = Except.error "ResourceNotFoundException" →
      solutionPreDelete descPre (arn :: rest) = solutionPreDelete descPre rest)
    ∧ (∀ arns descPre descPoll, arns.length ≤ 90 →
        (∀ a ∈ arns, descPre a = Except.error "ResourceNotFoundException") →
        (∀ p a, isNotFound (descPoll p a) = true) →
        delete_solutions arns descPre descPoll true = ([], Except.ok ())) := by
  refine ⟨solutionPreDelete_skip_absent, ?_⟩
  intro arns descPre descPoll hlen hpre hall
  simp only [delete_solutions, solutionPreDelete_all_absent descPre arns hpre]
  rw [pollLoopAux_all_absent_ok descPoll "solution(s)" "solutions" hall arns 90 hlen]

/-- Claim C10 witness: two solutions deleted externally before the phase
runs; the phase issues nothing and succeeds. -/
theorem claim_C10_witness :
    delete_solutions ["sol1", "sol2"]
      (fun _ => Except.error "ResourceNotFoundException") absentPollDesc true =
      ([], Except.ok ()) :=
  claim_C10.2 ["sol1", "sol2"] (fun _ => Except.error "ResourceNotFoundException")
    absentPollDesc (by decide) (fun _ _ => rfl) (fun _ _ => rfl)
